import Mathlib

/-!
Shallow embedding of src/src/utils/Vector/VectorPool.ts (class VectorPool)
and of the Vector2D collaborator it manages.

JavaScript objects are reference values, and VectorPool.clear_index copies a
reference inside the backing array, so aliasing is observable.  The embedding
therefore separates the object store from the backing array:

  * heap    : object id to current object state (a mutable Vector2D object);
  * heapLen : number of Vector2D objects constructed so far (fresh ids);
  * pool    : the backing array this._pool, mapping array position to object id;
  * poolLen : this._pool.length (the pool size / capacity);
  * count   : this._count (the live count).

Component values carry no arithmetic inside the pool (they are only stored and
copied), so they are modelled as integers.
-/

/-- Modelled from the spec: the Vector2D value type is not under src/ (only
its pool is).  Spec section 3: a mutable value with components x, y plus an
optional back-reference slotIndex; the pool source calls it _pool_index. -/
structure Vector2D where
  x : Int
  y : Int
  pool_index : Option Nat
deriving Repr, DecidableEq

/-- Modelled from the spec: Vector2D.set(x, y) is component assignment
(spec section 4.2); it does not touch the back-reference. -/
def Vector2D.set (v : Vector2D) (x y : Int) : Vector2D :=
  { v with x := x, y := y }

/-- Modelled from the spec: Vector2D.copy(source) copies the components of
another vector, not its identity (spec sections 4.1 and 4.2). -/
def Vector2D.copy (v s : Vector2D) : Vector2D :=
  { v with x := s.x, y := s.y }

/-- State of one VectorPool instance together with the store of every
Vector2D object it has constructed. -/
structure VectorPool where
  heap : Nat → Vector2D
  heapLen : Nat
  pool : Nat → Nat
  poolLen : Nat
  count : Nat

/-- The two failure conditions of clear_index: the source throws the string
Index out of bound for the range check and the string Pool is already cleared
for the empty-pool check. -/
inductive PoolError where
  | IndexOutOfRange
  | PoolEmpty
deriving Repr, DecidableEq

namespace VectorPool

/-- Constructor: new VectorPool(initialPoolSize) fills this._pool with
initialPoolSize objects new Vector2D(0, 0, i); this._count starts at 0.
Positions and ids outside the allocated range are given inert defaults. -/
def make (n : Nat) : VectorPool :=
  { heap := fun i => if i < n then ⟨0, 0, some i⟩ else ⟨0, 0, none⟩,
    heapLen := n,
    pool := fun i => if i < n then i else 0,
    poolLen := n,
    count := 0 }

/-- Getter size: this._pool.length. -/
def size (p : VectorPool) : Nat := p.poolLen

/-- Read the current state of the object with id oid. -/
def getObj (p : VectorPool) (oid : Nat) : Vector2D := p.heap oid

/-- Mutate the object with id oid (a JavaScript property assignment). -/
def writeObj (p : VectorPool) (oid : Nat) (v : Vector2D) : VectorPool :=
  { p with heap := fun j => if j = oid then v else p.heap j }

/-- The object id stored at backing-array position i: this._pool[i]. -/
def slotObjId (p : VectorPool) (i : Nat) : Nat := p.pool i

/-- The vector currently stored at backing-array position i. -/
def slotVec (p : VectorPool) (i : Nat) : Vector2D := p.heap (p.pool i)

/-- Method new(x, y): increment this._count; if this._pool.length is now
smaller than this._count, push new Vector2D(x, y, this._count - 1); return
this._pool[this._count - 1].set(x, y).  The result pairs the new pool state
with the id of the returned object reference. -/
def new (p : VectorPool) (x y : Int) : VectorPool × Nat :=
  let c := p.count + 1
  let p1 :=
    if p.poolLen < c then
      { p with
        heap := fun j => if j = p.heapLen then ⟨x, y, some (c - 1)⟩ else p.heap j,
        heapLen := p.heapLen + 1,
        pool := fun j => if j = p.poolLen then p.heapLen else p.pool j,
        poolLen := p.poolLen + 1,
        count := c }
    else { p with count := c }
  let rid := p1.pool (c - 1)
  (p1.writeObj rid ((p1.getObj rid).set x y), rid)

/-- Method clone(vector): this.new().copy(vector).  The argument is the id of
the object reference being cloned; new() defaults its components to (0, 0). -/
def clone (p : VectorPool) (vid : Nat) : VectorPool × Nat :=
  let r := p.new 0 0
  (r.1.writeObj r.2 ((r.1.getObj r.2).copy (r.1.getObj vid)), r.2)

/-- Modelled from the spec: Vector2D.fromAngle sets the components to the
cosine and sine of the angle (spec section 4.1); the trigonometric evaluation
is outside the pool, so the precomputed pair (c, s) is passed instead of the
angle.  Method fromAngle(angle): this.new().fromAngle(angle). -/
def fromAngle (p : VectorPool) (c s : Int) : VectorPool × Nat :=
  let r := p.new 0 0
  (r.1.writeObj r.2 ((r.1.getObj r.2).set c s), r.2)

/-- Modelled from the spec: the spec names this operation fromSource and makes
it equivalent to new(point.x, point.y); the point argument is abstracted to its
two components.  Method fromObservablePoint(point):
this.new().fromObservablePoint(point). -/
def fromObservablePoint (p : VectorPool) (x y : Int) : VectorPool × Nat :=
  let r := p.new 0 0
  (r.1.writeObj r.2 ((r.1.getObj r.2).set x y), r.2)

/-- Method clear(): this._count = 0.  The backing array and the objects are
untouched. -/
def clear (p : VectorPool) : VectorPool := { p with count := 0 }

/-- The three statements in the body of the if inside clear_index, executed
in source order: this._pool[index]._pool_index = undefined, then
this._pool[index] = this._pool[this._count - 1], then
this._pool[index]._pool_index = index. -/
def releaseSwap (p : VectorPool) (i : Nat) : VectorPool :=
  let pA := p.writeObj (p.pool i) { p.heap (p.pool i) with pool_index := none }
  let pB := { pA with pool := fun j => if j = i then pA.pool (p.count - 1) else pA.pool j }
  pB.writeObj (pB.pool i) { pB.heap (pB.pool i) with pool_index := some i }

/-- Method clear_index(index).  The source checks the range first (throwing
Index out of bound), then the empty pool (throwing Pool is already cleared);
on a non-last index it runs releaseSwap; finally this._count is
decremented. -/
def clear_index (p : VectorPool) (index : Int) : Except PoolError VectorPool :=
  if index < 0 ∨ (p.count : Int) ≤ index then .error .IndexOutOfRange
  else if p.count = 0 then .error .PoolEmpty
  else
    let p1 := if index + 1 < (p.count : Int) then p.releaseSwap index.toNat else p
    .ok { p1 with count := p1.count - 1 }

end VectorPool

/-- One call into the pool, for reasoning about sequences of operations. -/
inductive PoolOp where
  | new (x y : Int)
  | clone (vid : Nat)
  | fromAngle (c s : Int)
  | fromObservablePoint (x y : Int)
  | clear
  | clear_index (index : Int)

/-- Whether the operation is a clear_index (releaseAt) call. -/
def PoolOp.isRelease : PoolOp → Bool
  | .clear_index _ => true
  | _ => false

/-- Apply one operation to the pool.  A thrown exception leaves the pool
unchanged: in the source both throws of clear_index happen before any
mutation. -/
def applyOp (p : VectorPool) (op : PoolOp) : VectorPool :=
  match op with
  | .new x y => (p.new x y).1
  | .clone vid => (p.clone vid).1
  | .fromAngle c s => (p.fromAngle c s).1
  | .fromObservablePoint x y => (p.fromObservablePoint x y).1
  | .clear => p.clear
  | .clear_index i =>
      match p.clear_index i with
      | .ok q => q
      | .error _ => p

/-- The pool state after constructing with initialPoolSize n and running the
given operations in order. -/
def runOps (n : Nat) (ops : List PoolOp) : VectorPool :=
  ops.foldl applyOp (VectorPool.make n)

/-- Run a list of new(x, y) calls, keeping only the pool state. -/
def newSeq (p : VectorPool) (xs : List (Int × Int)) : VectorPool :=
  xs.foldl (fun q xy => (q.new xy.1 xy.2).1) p

/-- A pool in which a prior clear_index has left the backing array holding the
same object at positions 0 and 1: after new(1,2), new(3,4), clear_index(0) the
array is [obj1, obj1] with count 1 and obj1 = (3, 4, slot 0). -/
def aliasedPool : VectorPool := runOps 0 [.new 1 2, .new 3 4, .clear_index 0]

/-- A pool in which two live positions hold the same object: continuing from
aliasedPool plus new(5,6) and new(7,8) would differ; here new(1,2), new(3,4),
new(5,6), clear_index(0), new(7,8) gives array [obj2, obj1, obj2] with
count 3, so live positions 0 and 2 both hold obj2 = (7, 8, slot 0). -/
def aliasedLivePool : VectorPool :=
  runOps 0 [.new 1 2, .new 3 4, .new 5 6, .clear_index 0, .new 7 8]

section Helpers

variable (p : VectorPool)

theorem writeObj_count (o : Nat) (v : Vector2D) : (p.writeObj o v).count = p.count := rfl

theorem writeObj_size (o : Nat) (v : Vector2D) : (p.writeObj o v).size = p.size := rfl

theorem writeObj_pool (o : Nat) (v : Vector2D) : (p.writeObj o v).pool = p.pool := rfl

theorem new_count (x y : Int) : ((p.new x y).1).count = p.count + 1 := by
  simp only [VectorPool.new, VectorPool.writeObj]
  split <;> rfl

theorem new_size_of_le (x y : Int) (h : p.count + 1 ≤ p.size) :
    ((p.new x y).1).size = p.size := by
  simp only [VectorPool.size] at h
  simp only [VectorPool.new, VectorPool.writeObj, VectorPool.size]
  split
  · exact absurd h (by omega)
  · rfl

theorem new_size_of_eq (x y : Int) (h : p.count = p.size) :
    ((p.new x y).1).size = p.size + 1 := by
  simp only [VectorPool.size] at h
  have h2 : p.poolLen < p.count + 1 := by omega
  simp only [VectorPool.new, VectorPool.writeObj, VectorPool.size]
  rw [if_pos h2]

theorem getObj_writeObj_self (o : Nat) (v : Vector2D) :
    (p.writeObj o v).getObj o = v := by
  simp [VectorPool.writeObj, VectorPool.getObj]

theorem getObj_writeObj_ne (a o : Nat) (v : Vector2D) (h : a ≠ o) :
    (p.writeObj o v).getObj a = p.getObj a := by
  simp [VectorPool.writeObj, VectorPool.getObj, h]

theorem new_rid_of_lt (x y : Int) (h : p.count < p.size) :
    (p.new x y).2 = p.pool p.count := by
  simp only [VectorPool.size] at h
  simp only [VectorPool.new]
  rw [if_neg (by omega)]
  simp

theorem new_rid_of_eq (x y : Int) (h : p.count = p.size) :
    (p.new x y).2 = p.heapLen := by
  simp only [VectorPool.size] at h
  simp only [VectorPool.new]
  rw [if_pos (by omega)]
  simp [h]

theorem new_getObj_other (x y : Int) (a : Nat) (h : a ≠ (p.new x y).2)
    (h2 : a ≠ p.heapLen) : ((p.new x y).1).getObj a = p.getObj a := by
  simp only [VectorPool.new, VectorPool.writeObj, VectorPool.getObj] at h ⊢
  by_cases hp : p.poolLen < p.count + 1
  · rw [if_pos hp] at h ⊢
    rw [if_neg h]
    simp [h2]
  · rw [if_neg hp] at h ⊢
    rw [if_neg h]

theorem slotVec_eq_getObj (i : Nat) : p.slotVec i = p.getObj (p.pool i) := rfl

theorem new_pool_of_lt (x y : Int) (h : p.count < p.size) :
    ((p.new x y).1).pool = p.pool := by
  simp only [VectorPool.size] at h
  simp only [VectorPool.new, VectorPool.writeObj]
  rw [if_neg (by omega)]

theorem new_getObj_rid_x (x y : Int) :
    (((p.new x y).1).getObj (p.new x y).2).x = x := by
  simp [VectorPool.new, VectorPool.writeObj, VectorPool.getObj, Vector2D.set]

theorem new_getObj_rid_y (x y : Int) :
    (((p.new x y).1).getObj (p.new x y).2).y = y := by
  simp [VectorPool.new, VectorPool.writeObj, VectorPool.getObj, Vector2D.set]

theorem new_size_mono (x y : Int) : p.size ≤ ((p.new x y).1).size := by
  simp only [VectorPool.new, VectorPool.writeObj, VectorPool.size]
  split <;> simp

theorem new_inv (x y : Int) (h : p.count ≤ p.size) :
    ((p.new x y).1).count ≤ ((p.new x y).1).size := by
  simp only [VectorPool.size] at h
  rw [new_count]
  simp only [VectorPool.new, VectorPool.writeObj, VectorPool.size]
  split <;> simp <;> omega

theorem releaseSwap_count (i : Nat) : (p.releaseSwap i).count = p.count := by
  simp [VectorPool.releaseSwap, VectorPool.writeObj]

theorem releaseSwap_size (i : Nat) : (p.releaseSwap i).size = p.size := by
  simp [VectorPool.releaseSwap, VectorPool.writeObj, VectorPool.size]

theorem releaseSwap_poolLen (i : Nat) : (p.releaseSwap i).poolLen = p.poolLen := by
  simp [VectorPool.releaseSwap, VectorPool.writeObj]

theorem releaseSwap_heapLen (i : Nat) : (p.releaseSwap i).heapLen = p.heapLen := by
  simp [VectorPool.releaseSwap, VectorPool.writeObj]

theorem releaseSwap_pool_self (i : Nat) :
    (p.releaseSwap i).pool i = p.pool (p.count - 1) := by
  simp [VectorPool.releaseSwap, VectorPool.writeObj]

theorem releaseSwap_pool_other (i j : Nat) (h : j ≠ i) :
    (p.releaseSwap i).pool j = p.pool j := by
  simp [VectorPool.releaseSwap, VectorPool.writeObj, h]

theorem releaseSwap_heap_last (i : Nat) (h : p.pool (p.count - 1) ≠ p.pool i) :
    (p.releaseSwap i).heap (p.pool (p.count - 1)) =
      { p.heap (p.pool (p.count - 1)) with pool_index := some i } := by
  simp [VectorPool.releaseSwap, VectorPool.writeObj, h, Ne.symm h]

theorem releaseSwap_heap_released (i : Nat) (h : p.pool (p.count - 1) ≠ p.pool i) :
    (p.releaseSwap i).heap (p.pool i) =
      { p.heap (p.pool i) with pool_index := none } := by
  simp [VectorPool.releaseSwap, VectorPool.writeObj, h, Ne.symm h]

theorem clear_index_ok_swap (i : Nat) (hi : i + 1 < p.count) :
    p.clear_index i = .ok { p.releaseSwap i with count := (p.releaseSwap i).count - 1 } := by
  simp only [VectorPool.clear_index, Int.toNat_natCast]
  rw [if_neg (by omega), if_neg (by omega), if_pos (by omega)]

theorem clear_index_cases (index : Int) :
    (∃ e, p.clear_index index = .error e)
    ∨ ∃ q, p.clear_index index = .ok q ∧ q.count = p.count - 1
        ∧ q.size = p.size ∧ q.heapLen = p.heapLen := by
  unfold VectorPool.clear_index
  split
  · exact Or.inl ⟨_, rfl⟩
  split
  · exact Or.inl ⟨_, rfl⟩
  · refine Or.inr ⟨_, rfl, ?_, ?_, ?_⟩ <;>
      · dsimp only
        split <;>
          simp [releaseSwap_count, releaseSwap_poolLen, releaseSwap_heapLen, VectorPool.size]

end Helpers

theorem applyOp_size_mono (p : VectorPool) (op : PoolOp) :
    p.size ≤ (applyOp p op).size := by
  cases op with
  | new x y => exact new_size_mono p x y
  | clone vid =>
      simp only [applyOp, VectorPool.clone, writeObj_size]
      exact new_size_mono p 0 0
  | fromAngle c s =>
      simp only [applyOp, VectorPool.fromAngle, writeObj_size]
      exact new_size_mono p 0 0
  | fromObservablePoint x y =>
      simp only [applyOp, VectorPool.fromObservablePoint, writeObj_size]
      exact new_size_mono p 0 0
  | clear => exact le_of_eq rfl
  | clear_index i =>
      rcases clear_index_cases p i with ⟨e, he⟩ | ⟨q, hq, _, hsz, _⟩
      · simp only [applyOp, he]
        exact le_refl _
      · simp only [applyOp, hq]
        exact le_of_eq hsz.symm

theorem applyOp_count_le_size (p : VectorPool) (op : PoolOp) (h : p.count ≤ p.size) :
    (applyOp p op).count ≤ (applyOp p op).size := by
  cases op with
  | new x y => exact new_inv p x y h
  | clone vid =>
      simp only [applyOp, VectorPool.clone, writeObj_size, writeObj_count]
      exact new_inv p 0 0 h
  | fromAngle c s =>
      simp only [applyOp, VectorPool.fromAngle, writeObj_size, writeObj_count]
      exact new_inv p 0 0 h
  | fromObservablePoint x y =>
      simp only [applyOp, VectorPool.fromObservablePoint, writeObj_size, writeObj_count]
      exact new_inv p 0 0 h
  | clear => exact Nat.zero_le _
  | clear_index i =>
      rcases clear_index_cases p i with ⟨e, he⟩ | ⟨q, hq, hct, hsz, _⟩
      · simp only [applyOp, he]; exact h
      · simp only [applyOp, hq]
        rw [hct, hsz]
        omega

theorem foldl_count_le_size (ops : List PoolOp) (p : VectorPool) (h : p.count ≤ p.size) :
    (ops.foldl applyOp p).count ≤ (ops.foldl applyOp p).size := by
  induction ops generalizing p with
  | nil => exact h
  | cons op ops ih => exact ih (applyOp p op) (applyOp_count_le_size p op h)

theorem foldl_size_mono (ops : List PoolOp) (p : VectorPool) :
    p.size ≤ (ops.foldl applyOp p).size := by
  induction ops generalizing p with
  | nil => exact le_refl _
  | cons op ops ih => exact le_trans (applyOp_size_mono p op) (ih (applyOp p op))

/-- Structural invariant of pools never touched by clear_index: the live
count fits in the backing array, every backing-array position holds a
constructed object, and every stored object's back-reference equals the
position holding it (in particular it is set even on free slots). -/
def NRInv (p : VectorPool) : Prop :=
  p.count ≤ p.poolLen
  ∧ (∀ i, i < p.poolLen → p.pool i < p.heapLen)
  ∧ ∀ i, i < p.poolLen → (p.heap (p.pool i)).pool_index = some i

theorem NRInv_make (n : Nat) : NRInv (VectorPool.make n) := by
  refine ⟨Nat.zero_le _, ?_, ?_⟩ <;> intro i hi <;>
    · have hi2 : i < n := hi
      simp [VectorPool.make, hi2]

theorem NRInv_writeObj (p : VectorPool) (o : Nat) (v : Vector2D)
    (hv : v.pool_index = (p.heap o).pool_index) (h : NRInv p) :
    NRInv (p.writeObj o v) := by
  obtain ⟨h1, h2, h3⟩ := h
  refine ⟨h1, h2, ?_⟩
  intro i hi
  simp only [VectorPool.writeObj]
  by_cases he : p.pool i = o
  · rw [if_pos he, hv, ← he]
    exact h3 i hi
  · rw [if_neg he]
    exact h3 i hi

theorem NRInv_new (p : VectorPool) (x y : Int) (h : NRInv p) :
    NRInv ((p.new x y).1) := by
  simp only [VectorPool.new]
  refine NRInv_writeObj _ _ _ rfl ?_
  obtain ⟨h1, h2, h3⟩ := h
  by_cases hp : p.poolLen < p.count + 1
  · rw [if_pos hp]
    have hcp : p.count = p.poolLen := Nat.le_antisymm h1 (by omega)
    refine ⟨by dsimp; omega, ?_, ?_⟩ <;> intro i hi <;> dsimp at hi ⊢
    · by_cases hip : i = p.poolLen
      · rw [if_pos hip]; omega
      · rw [if_neg hip]
        have := h2 i (by omega)
        omega
    · by_cases hip : i = p.poolLen
      · rw [if_pos hip, if_pos rfl]
        simp [hip, hcp]
      · rw [if_neg hip]
        have hlt : i < p.poolLen := by omega
        have hne2 : p.pool i ≠ p.heapLen := Nat.ne_of_lt (h2 i hlt)
        rw [if_neg hne2]
        exact h3 i hlt
  · rw [if_neg hp]
    exact ⟨by dsimp; omega, h2, h3⟩

theorem NRInv_applyOp (p : VectorPool) (op : PoolOp)
    (hop : op.isRelease = false) (h : NRInv p) : NRInv (applyOp p op) := by
  cases op with
  | new x y => exact NRInv_new p x y h
  | clone vid =>
      simp only [applyOp, VectorPool.clone]
      exact NRInv_writeObj _ _ _ rfl (NRInv_new p 0 0 h)
  | fromAngle c s =>
      simp only [applyOp, VectorPool.fromAngle]
      exact NRInv_writeObj _ _ _ rfl (NRInv_new p 0 0 h)
  | fromObservablePoint x y =>
      simp only [applyOp, VectorPool.fromObservablePoint]
      exact NRInv_writeObj _ _ _ rfl (NRInv_new p 0 0 h)
  | clear => exact ⟨Nat.zero_le _, h.2.1, h.2.2⟩
  | clear_index i => simp [PoolOp.isRelease] at hop

theorem NRInv_foldl (ops : List PoolOp) (p : VectorPool)
    (hops : ∀ op ∈ ops, op.isRelease = false) (h : NRInv p) :
    NRInv (ops.foldl applyOp p) := by
  induction ops generalizing p with
  | nil => exact h
  | cons op ops ih =>
      exact ih (applyOp p op)
        (fun o ho => hops o (List.mem_cons_of_mem op ho))
        (NRInv_applyOp p op (hops op (List.mem_cons_self op ops)) h)

/-- C2 amended: after construction and any sequence of new, clone, fromAngle,
fromObservablePoint and clear calls (no clear_index), every backing-array
slot, live or free, has its back-reference equal to its array position; in
particular free slots carry a set back-reference rather than an unset one. -/
theorem slot_index_without_release (n : Nat) (ops : List PoolOp)
    (hops : ∀ op ∈ ops, op.isRelease = false) :
    ∀ i, i < (runOps n ops).size →
      ((runOps n ops).slotVec i).pool_index = some i := by
  intro i hi
  exact (NRInv_foldl ops _ hops (NRInv_make n)).2.2 i hi

/-- Witness for slot_index_without_release: one allocation on a pool of
initial size 1. -/
theorem slot_index_without_release_witness :
    (∀ op ∈ [PoolOp.new 1 2], op.isRelease = false)
    ∧ 0 < (runOps 1 [PoolOp.new 1 2]).size
    ∧ ((runOps 1 [PoolOp.new 1 2]).slotVec 0).pool_index = some 0 :=
  ⟨by decide, by decide,
    slot_index_without_release 1 [PoolOp.new 1 2] (by decide) 0 (by decide)⟩

/-- C10: in every state reachable by a sequence of pool operations, the live
count never exceeds the capacity, and extending a run with further operations
never decreases the capacity. -/
theorem pool_count_capacity_invariant :
    (∀ (n : Nat) (ops : List PoolOp), (runOps n ops).count ≤ (runOps n ops).size)
    ∧ ∀ (n : Nat) (ops more : List PoolOp),
        (runOps n ops).size ≤ (runOps n (ops ++ more)).size := by
  constructor
  · intro n ops
    exact foldl_count_le_size ops (VectorPool.make n) (Nat.zero_le _)
  · intro n ops more
    unfold runOps
    rw [List.foldl_append]
    exact foldl_size_mono more _

/-- A pool built by three plain allocations: backing array [obj0, obj1, obj2]
with components (1,2), (3,4), (5,6) and count 3; no aliasing. -/
def threePool : VectorPool := runOps 0 [.new 1 2, .new 3 4, .new 5 6]

/-- C3 amended: when the slots at index and at count - 1 hold distinct
objects, clear_index(index) on a non-last active index moves the last active
slot into position index (same component values, back-reference updated to
index), clears the released object's back-reference, and decrements the live
count by exactly one. -/
theorem clear_index_swap_remove (p : VectorPool) (i : Nat)
    (hi : i + 1 < p.count)
    (hne : p.pool i ≠ p.pool (p.count - 1)) :
    ∃ q, p.clear_index i = .ok q
      ∧ q.count = p.count - 1
      ∧ (q.slotVec i).x = (p.slotVec (p.count - 1)).x
      ∧ (q.slotVec i).y = (p.slotVec (p.count - 1)).y
      ∧ (q.slotVec i).pool_index = some i
      ∧ (q.getObj (p.pool i)).pool_index = none := by
  have hne2 : p.pool (p.count - 1) ≠ p.pool i := Ne.symm hne
  refine ⟨_, clear_index_ok_swap p i hi, ?_, ?_, ?_, ?_, ?_⟩
  · simp [releaseSwap_count]
  · show (((p.releaseSwap i).heap ((p.releaseSwap i).pool i)).x) = (p.slotVec (p.count - 1)).x
    rw [releaseSwap_pool_self, releaseSwap_heap_last p i hne2]
    rfl
  · show (((p.releaseSwap i).heap ((p.releaseSwap i).pool i)).y) = (p.slotVec (p.count - 1)).y
    rw [releaseSwap_pool_self, releaseSwap_heap_last p i hne2]
    rfl
  · show (((p.releaseSwap i).heap ((p.releaseSwap i).pool i)).pool_index) = some i
    rw [releaseSwap_pool_self, releaseSwap_heap_last p i hne2]
  · show (((p.releaseSwap i).heap (p.pool i)).pool_index) = none
    rw [releaseSwap_heap_released p i hne2]

/-- Witness for clear_index_swap_remove: releasing index 0 of a fresh
three-element pool. -/
theorem clear_index_swap_remove_witness :
    (0 + 1 < threePool.count)
    ∧ (threePool.pool 0 ≠ threePool.pool (threePool.count - 1))
    ∧ ∃ q, threePool.clear_index 0 = .ok q
        ∧ q.count = threePool.count - 1
        ∧ (q.slotVec 0).x = (threePool.slotVec (threePool.count - 1)).x
        ∧ (q.slotVec 0).y = (threePool.slotVec (threePool.count - 1)).y
        ∧ (q.slotVec 0).pool_index = some 0
        ∧ (q.getObj (threePool.pool 0)).pool_index = none :=
  ⟨by decide, by decide, clear_index_swap_remove threePool 0 (by decide) (by decide)⟩

/-- The pool aliasedLivePool after clear_index(0): count 2, the released
object obj2 keeps back-reference 0 instead of having it cleared. -/
def aliasedLiveReleased : VectorPool :=
  runOps 0 [.new 1 2, .new 3 4, .new 5 6, .clear_index 0, .new 7 8, .clear_index 0]

/-- C3 counterexample: in aliasedLivePool, positions 0 and 2 (the last active
position) hold the same object, index 0 is not the last active index, and
after clear_index(0) the moved-out slot keeps back-reference 0: its
back-reference is not cleared as the claim requires. -/
theorem clear_index_moved_out_not_cleared :
    aliasedLivePool.count = 3
    ∧ (0 + 1 < aliasedLivePool.count)
    ∧ aliasedLivePool.pool 0 = aliasedLivePool.pool 2
    ∧ aliasedLivePool.clear_index 0 = .ok aliasedLiveReleased
    ∧ (aliasedLiveReleased.getObj (aliasedLivePool.pool 0)).pool_index = some 0 :=
  ⟨by decide, by decide, by decide, rfl, by decide⟩

/-- The pool threePool after clear_index(0): backing array [obj2, obj1, obj2]
with count 2. -/
def threeReleased : VectorPool := runOps 0 [.new 1 2, .new 3 4, .new 5 6, .clear_index 0]

/-- C4: when clear_index(index) on a non-last active index succeeds with
state q, the same object is referenced at position index and at the old last
position count - 1, the next new(x, y) hands out exactly that object, and
reading the live vector at position index immediately afterwards yields the
components (x, y). -/
theorem release_then_new_aliases (p q : VectorPool) (i : Nat) (x y : Int)
    (hi : i + 1 < p.count) (hcap : p.count ≤ p.size)
    (hok : p.clear_index i = .ok q) :
    q.pool i = q.pool (p.count - 1)
    ∧ (q.new x y).2 = q.pool i
    ∧ (((q.new x y).1).slotVec i).x = x
    ∧ (((q.new x y).1).slotVec i).y = y := by
  have hne2 : p.count - 1 ≠ i := by omega
  have hq : q = { p.releaseSwap i with count := (p.releaseSwap i).count - 1 } :=
    (Except.ok.inj ((clear_index_ok_swap p i hi).symm.trans hok)).symm
  have hcount : q.count = p.count - 1 := by
    rw [hq]; simp [releaseSwap_count]
  have hplen : q.size = p.size := by
    rw [hq]; simp [VectorPool.size, releaseSwap_poolLen]
  have hpool_i : q.pool i = p.pool (p.count - 1) := by
    rw [hq]; exact releaseSwap_pool_self p i
  have hpool_last : q.pool (p.count - 1) = p.pool (p.count - 1) := by
    rw [hq]; exact releaseSwap_pool_other p i _ hne2
  have hlt : q.count < q.size := by
    rw [hcount, hplen]
    have : 1 ≤ p.count := by omega
    exact lt_of_lt_of_le (by omega) hcap
  refine ⟨?_, ?_, ?_, ?_⟩
  · rw [hpool_i, hpool_last]
  · rw [new_rid_of_lt q x y hlt, hcount, hpool_last, hpool_i]
  · rw [slotVec_eq_getObj, new_pool_of_lt q x y hlt, hpool_i, ← hpool_last, ← hcount,
      ← new_rid_of_lt q x y hlt]
    exact new_getObj_rid_x q x y
  · rw [slotVec_eq_getObj, new_pool_of_lt q x y hlt, hpool_i, ← hpool_last, ← hcount,
      ← new_rid_of_lt q x y hlt]
    exact new_getObj_rid_y q x y

/-- Witness for release_then_new_aliases: release index 0 of the fresh
three-element pool, then allocate (9, 11). -/
theorem release_then_new_aliases_witness :
    (0 + 1 < threePool.count)
    ∧ threePool.count ≤ threePool.size
    ∧ threePool.clear_index 0 = .ok threeReleased
    ∧ threeReleased.pool 0 = threeReleased.pool (threePool.count - 1)
    ∧ (threeReleased.new 9 11).2 = threeReleased.pool 0
    ∧ (((threeReleased.new 9 11).1).slotVec 0).x = 9
    ∧ (((threeReleased.new 9 11).1).slotVec 0).y = 11 :=
  ⟨by decide, by decide, rfl,
    (release_then_new_aliases threePool threeReleased 0 9 11 (by decide) (by decide) rfl).1,
    (release_then_new_aliases threePool threeReleased 0 9 11 (by decide) (by decide) rfl).2.1,
    (release_then_new_aliases threePool threeReleased 0 9 11 (by decide) (by decide) rfl).2.2.1,
    (release_then_new_aliases threePool threeReleased 0 9 11 (by decide) (by decide) rfl).2.2.2⟩

/-- C5 counterexample: in aliasedPool the live vector at position 0 is
object 1 with components (3, 4); clone of that object returns object 1
itself (the same slot, not a distinct one), and the allocation inside clone
has reset the components of the source to (0, 0) before copying, so the
result no longer equals the original (3, 4) either. -/
theorem clone_can_return_source :
    aliasedPool.count = 1
    ∧ aliasedPool.pool 0 = 1
    ∧ (aliasedPool.slotVec 0).x = 3 ∧ (aliasedPool.slotVec 0).y = 4
    ∧ (aliasedPool.clone 1).2 = 1
    ∧ ((aliasedPool.clone 1).1.getObj 1).x = 0
    ∧ ((aliasedPool.clone 1).1.getObj 1).y = 0 := by
  decide

/-- C5 amended: clone(v) returns a vector equal in components to v occupying
a distinct slot, so that mutating the clone does not mutate v, provided the
slot clone recycles (backing-array position count) does not already alias v;
after a clear_index that slot can alias a live v, and clone(v) then returns v
itself with both components zeroed. -/
theorem clone_distinct_slot (p : VectorPool) (vid : Nat)
    (hcap : p.count ≤ p.size) (hv : vid < p.heapLen)
    (hne : p.count < p.size → p.pool p.count ≠ vid) :
    (p.clone vid).2 ≠ vid
    ∧ ((p.clone vid).1.getObj (p.clone vid).2).x = (p.getObj vid).x
    ∧ ((p.clone vid).1.getObj (p.clone vid).2).y = (p.getObj vid).y
    ∧ (p.clone vid).1.getObj vid = p.getObj vid
    ∧ ∀ w, ((p.clone vid).1.writeObj (p.clone vid).2 w).getObj vid
        = (p.clone vid).1.getObj vid := by
  have hvh : vid ≠ p.heapLen := Nat.ne_of_lt hv
  have hrid : (p.new 0 0).2 ≠ vid := by
    rcases lt_or_le p.count p.size with hlt | hge
    · rw [new_rid_of_lt p 0 0 hlt]
      exact hne hlt
    · rw [new_rid_of_eq p 0 0 (le_antisymm hcap hge)]
      exact Ne.symm hvh
  have hvobj : ((p.new 0 0).1).getObj vid = p.getObj vid :=
    new_getObj_other p 0 0 vid (Ne.symm hrid) hvh
  simp only [VectorPool.clone]
  refine ⟨hrid, ?_, ?_, ?_, ?_⟩
  · rw [getObj_writeObj_self]
    simp [Vector2D.copy, hvobj]
  · rw [getObj_writeObj_self]
    simp [Vector2D.copy, hvobj]
  · rw [getObj_writeObj_ne _ vid _ _ (Ne.symm hrid)]
    exact hvobj
  · intro w
    rw [getObj_writeObj_ne _ vid _ _ (Ne.symm hrid)]

/-- Witness for clone_distinct_slot: cloning the live object 1 of the fresh
three-element pool. -/
theorem clone_distinct_slot_witness :
    threePool.count ≤ threePool.size
    ∧ (1 : Nat) < threePool.heapLen
    ∧ (threePool.clone 1).2 ≠ 1
    ∧ ((threePool.clone 1).1.getObj (threePool.clone 1).2).x = (threePool.getObj 1).x
    ∧ ((threePool.clone 1).1.getObj (threePool.clone 1).2).y = (threePool.getObj 1).y
    ∧ (threePool.clone 1).1.getObj 1 = threePool.getObj 1 :=
  ⟨by decide, by decide,
    (clone_distinct_slot threePool 1 (by decide) (by decide) (by decide)).1,
    (clone_distinct_slot threePool 1 (by decide) (by decide) (by decide)).2.1,
    (clone_distinct_slot threePool 1 (by decide) (by decide) (by decide)).2.2.1,
    (clone_distinct_slot threePool 1 (by decide) (by decide) (by decide)).2.2.2.1⟩

/-- C9: clear_index with index below 0 or at least the live count fails with
the range error, before any mutation takes place. -/
theorem clear_index_out_of_range (p : VectorPool) (index : Int)
    (h : index < 0 ∨ (p.count : Int) ≤ index) :
    p.clear_index index = .error .IndexOutOfRange := by
  unfold VectorPool.clear_index
  rw [if_pos h]

/-- Witness for clear_index_out_of_range at a concrete pool and index. -/
theorem clear_index_out_of_range_witness :
    ((3 : Int) < 0 ∨ ((VectorPool.make 2).count : Int) ≤ 3)
    ∧ (VectorPool.make 2).clear_index 3 = .error .IndexOutOfRange :=
  ⟨by decide, clear_index_out_of_range (VectorPool.make 2) 3 (by decide)⟩

/-- C1 counterexample: on an empty pool, clear_index(0) fails with the range
error, not with the empty-pool error the claim promises. -/
theorem clear_index_empty_not_pool_empty :
    (VectorPool.make 0).clear_index 0 = .error .IndexOutOfRange
    ∧ (VectorPool.make 0).clear_index 0 ≠ .error .PoolEmpty := by
  constructor
  · rfl
  · intro h
    exact PoolError.noConfusion (Except.error.inj h)

/-- C1 amended: whenever the live count is 0, clear_index fails with the
range error for every index; the empty-pool check is unreachable because the
range check subsumes it. -/
theorem clear_index_empty_is_out_of_range (p : VectorPool) (index : Int)
    (h : p.count = 0) : p.clear_index index = .error .IndexOutOfRange := by
  unfold VectorPool.clear_index
  rw [if_pos]
  rcases lt_or_le index 0 with h1 | h1
  · exact Or.inl h1
  · exact Or.inr (by rw [h]; exact_mod_cast h1)

/-- Witness for clear_index_empty_is_out_of_range on a freshly made pool. -/
theorem clear_index_empty_is_out_of_range_witness :
    (VectorPool.make 5).count = 0
    ∧ (VectorPool.make 5).clear_index 2 = .error .IndexOutOfRange :=
  ⟨rfl, clear_index_empty_is_out_of_range (VectorPool.make 5) 2 rfl⟩

/-- C2 counterexample: immediately after construction with initialPoolSize 1
the single slot is free (count = 0), yet its back-reference is set to 0, not
unset as the claim requires for free slots. -/
theorem free_slot_index_set_after_make :
    (VectorPool.make 1).count = 0 ∧ (VectorPool.make 1).size = 1
    ∧ ((VectorPool.make 1).slotVec 0).pool_index = some 0 := by
  decide

/-- C7: clear resets the live count to 0 and leaves the capacity, the backing
array and every stored vector untouched. -/
theorem clear_resets_count_only (p : VectorPool) :
    p.clear.count = 0 ∧ p.clear.size = p.size
    ∧ (∀ i, p.clear.slotVec i = p.slotVec i) :=
  ⟨rfl, rfl, fun _ => rfl⟩

/-- C8: new(x, y) increments the live count by exactly one, and reading the
returned reference immediately afterwards yields exactly the components
(x, y). -/
theorem new_increments_and_returns_components (p : VectorPool) (x y : Int) :
    ((p.new x y).1).count = p.count + 1
    ∧ (((p.new x y).1).getObj (p.new x y).2).x = x
    ∧ (((p.new x y).1).getObj (p.new x y).2).y = y := by
  refine ⟨new_count p x y, ?_, ?_⟩ <;>
    simp [VectorPool.new, VectorPool.writeObj, VectorPool.getObj, Vector2D.set]

/-- C6: a sequence of new calls never grows the backing array while the live
count stays within the current capacity, and a single new call issued when
the live count equals the capacity grows the capacity by exactly one. -/
theorem new_growth_policy :
    (∀ (p : VectorPool) (xs : List (Int × Int)),
        p.count + xs.length ≤ p.size → (newSeq p xs).size = p.size)
    ∧ ∀ (p : VectorPool) (x y : Int),
        p.count = p.size → ((p.new x y).1).size = p.size + 1 := by
  constructor
  · intro p xs
    induction xs generalizing p with
    | nil => intro _; rfl
    | cons xy xs ih =>
        intro h
        have hlen : p.count + (xs.length + 1) ≤ p.size := by simpa using h
        have hc : p.count + 1 ≤ p.size := by omega
        have hsz := new_size_of_le p xy.1 xy.2 hc
        have hct := new_count p xy.1 xy.2
        have hstep : newSeq p (xy :: xs) = newSeq ((p.new xy.1 xy.2).1) xs := rfl
        rw [hstep, ih _ (by rw [hct, hsz]; omega), hsz]
  · intro p x y h
    exact new_size_of_eq p x y h

/-- Witness for new_growth_policy: two allocations inside a capacity of 2
leave the capacity at 2, and one allocation on a full (empty, capacity 0)
pool grows the capacity to 1. -/
theorem new_growth_policy_witness :
    ((VectorPool.make 2).count + 2 ≤ (VectorPool.make 2).size
      ∧ (newSeq (VectorPool.make 2) [(1, 1), (2, 2)]).size = (VectorPool.make 2).size)
    ∧ ((VectorPool.make 0).count = (VectorPool.make 0).size
      ∧ (((VectorPool.make 0).new 3 3).1).size = (VectorPool.make 0).size + 1) :=
  ⟨⟨by decide, new_growth_policy.1 (VectorPool.make 2) [(1, 1), (2, 2)] (by decide)⟩,
   ⟨rfl, new_growth_policy.2 (VectorPool.make 0) 3 3 rfl⟩⟩
